import Mathlib

/-!
# Verification of the whisper streaming server

A shallow embedding, in Lean 4, of the core logic of `whisper_server.py`:

* the per-connection audio accumulation buffer and its chunk-extraction /
  overlap / overflow policy (the inline loop in `handle_websocket`,
  lines 502–528 of the source);
* the segment post-processing performed by `transcribe_audio_chunk`
  (lines 307–344);
* the result dispatch of `process_audio_chunk` (lines 395–440);
* the one-shot request path `transcribe_audio_request` (lines 356–393);
* the control-message handling and session-buffer registry of
  `handle_websocket` (lines 442–574).

Byte strings are embedded as `List Nat`, Python `bytes`/`bytearray` slicing
as `List.take` / `List.drop`, and the process-global `audio_buffers` dict as
an association list with Python-dict update/delete semantics.  The external
inference engine (faster-whisper) and the ffmpeg transcoder are out of scope;
their outputs enter the model as parameters (a list of segments, or an
`Except` value standing for "returned normally" vs "raised an exception").
-/

/-! ## Configuration constants (whisper_server.py lines 73–77) -/

/-- `MIN_CHUNK_SIZE = 48000` — 1.5 seconds of 16 kHz mono Int16 audio. -/
def MIN_CHUNK_SIZE : Nat := 48000

/-- `OVERLAP_SIZE = 16000` — 500 ms of audio retained between chunks. -/
def OVERLAP_SIZE : Nat := 16000

/-- `MAX_BUFFER_SIZE = 160000` — 5 seconds; hard cap on the accumulator. -/
def MAX_BUFFER_SIZE : Nat := 160000

/-! ## The chunk-extraction loop (handle_websocket, lines 514–528)

```
while len(audio_buffers[buffer_key]) >= MIN_CHUNK_SIZE:
    chunk = bytes(audio_buffers[buffer_key][:MIN_CHUNK_SIZE])
    if len(audio_buffers[buffer_key]) > MIN_CHUNK_SIZE:
        audio_buffers[buffer_key] = audio_buffers[buffer_key][MIN_CHUNK_SIZE - OVERLAP_SIZE:]
    else:
        audio_buffers[buffer_key] = bytearray()
    asyncio.create_task(process_audio_chunk(websocket, source_type, chunk))
```

`chunkLoop` returns the extracted chunks in order together with the final
buffer.  The loop terminates because each iteration either clears the buffer
or shortens it by `minC - ov` bytes; this needs `ov < minC`, which holds for
the program's constants (`OVERLAP_SIZE < MIN_CHUNK_SIZE`) and is threaded
through as the proof argument `hov`. -/
def chunkLoop (minC ov : Nat) (hov : ov < minC) (buf : List Nat) :
    List (List Nat) × List Nat :=
  if minC ≤ buf.length then
    let chunk := buf.take minC
    if minC < buf.length then
      let r := chunkLoop minC ov hov (buf.drop (minC - ov))
      (chunk :: r.1, r.2)
    else
      ([chunk], [])
  else
    ([], buf)
termination_by buf.length
decreasing_by
  simp only [List.length_drop]
  omega

/-- The outcome of handling one binary websocket message for one session
buffer: the chunks handed to `process_audio_chunk`, the final accumulator,
and the number of bytes trimmed by the overflow guard. -/
structure FeedResult where
  chunks : List (List Nat)
  buffer : List Nat
  dropped : Nat
deriving Repr, DecidableEq

/-- Lines 502–528 of `handle_websocket` for a buffer that exists: extend the
accumulator with the incoming bytes, trim the oldest `excess` bytes if the
result exceeds `MAX_BUFFER_SIZE`, then run the chunk-extraction loop.

```
audio_buffers[buffer_key].extend(message)
if len(audio_buffers[buffer_key]) > MAX_BUFFER_SIZE:
    excess = len(audio_buffers[buffer_key]) - MAX_BUFFER_SIZE
    audio_buffers[buffer_key] = audio_buffers[buffer_key][excess:]
while ...  -- chunkLoop
``` -/
def feed (minC ov maxB : Nat) (hov : ov < minC) (buf msg : List Nat) : FeedResult :=
  let b1 := buf ++ msg
  if maxB < b1.length then
    let excess := b1.length - maxB
    let r := chunkLoop minC ov hov (b1.drop excess)
    ⟨r.1, r.2, excess⟩
  else
    let r := chunkLoop minC ov hov b1
    ⟨r.1, r.2, 0⟩

/-- `OVERLAP_SIZE < MIN_CHUNK_SIZE`, the termination invariant, at the
program's constants. -/
def hovServer : OVERLAP_SIZE < MIN_CHUNK_SIZE := by decide

/-- The chunk-extraction loop at the program's constants. -/
def chunkLoopServer : List Nat → List (List Nat) × List Nat :=
  chunkLoop MIN_CHUNK_SIZE OVERLAP_SIZE hovServer

/-- One binary-message feed at the program's constants. -/
def feedServer : List Nat → List Nat → FeedResult :=
  feed MIN_CHUNK_SIZE OVERLAP_SIZE MAX_BUFFER_SIZE hovServer

/-! ### Unfolding lemmas for the loop -/

theorem chunkLoop_eq (minC ov : Nat) (hov : ov < minC) (buf : List Nat) :
    chunkLoop minC ov hov buf =
      if minC ≤ buf.length then
        if minC < buf.length then
          ((buf.take minC) :: (chunkLoop minC ov hov (buf.drop (minC - ov))).1,
            (chunkLoop minC ov hov (buf.drop (minC - ov))).2)
        else ([buf.take minC], [])
      else ([], buf) := by
  rw [chunkLoop]

theorem chunkLoop_gt (minC ov : Nat) (hov : ov < minC) (buf : List Nat)
    (h : minC < buf.length) :
    chunkLoop minC ov hov buf =
      ((buf.take minC) :: (chunkLoop minC ov hov (buf.drop (minC - ov))).1,
        (chunkLoop minC ov hov (buf.drop (minC - ov))).2) := by
  rw [chunkLoop_eq, if_pos (Nat.le_of_lt h), if_pos h]

theorem chunkLoop_exact (minC ov : Nat) (hov : ov < minC) (buf : List Nat)
    (h : buf.length = minC) :
    chunkLoop minC ov hov buf = ([buf], []) := by
  rw [chunkLoop_eq, if_pos (Nat.le_of_eq h.symm), if_neg (by omega)]
  rw [← h, List.take_length]

theorem chunkLoop_small (minC ov : Nat) (hov : ov < minC) (buf : List Nat)
    (h : buf.length < minC) :
    chunkLoop minC ov hov buf = ([], buf) := by
  rw [chunkLoop_eq, if_neg (by omega)]

theorem feed_no_overflow (minC ov maxB : Nat) (hov : ov < minC) (buf msg : List Nat)
    (h : buf.length + msg.length ≤ maxB) :
    feed minC ov maxB hov buf msg =
      ⟨(chunkLoop minC ov hov (buf ++ msg)).1,
        (chunkLoop minC ov hov (buf ++ msg)).2, 0⟩ := by
  unfold feed
  rw [if_neg (by simp only [List.length_append]; omega)]

theorem feed_overflow (minC ov maxB : Nat) (hov : ov < minC) (buf msg : List Nat)
    (h : maxB < buf.length + msg.length) :
    feed minC ov maxB hov buf msg =
      ⟨(chunkLoop minC ov hov ((buf ++ msg).drop ((buf ++ msg).length - maxB))).1,
        (chunkLoop minC ov hov ((buf ++ msg).drop ((buf ++ msg).length - maxB))).2,
        (buf ++ msg).length - maxB⟩ := by
  unfold feed
  rw [if_pos (by simp only [List.length_append]; omega)]

/-! ### Structural facts about the loop -/

/-- The loop always drains the accumulator strictly below the trigger
threshold. -/
theorem chunkLoop_buf_lt (minC ov : Nat) (hov : ov < minC) (buf : List Nat) :
    (chunkLoop minC ov hov buf).2.length < minC := by
  induction buf using chunkLoop.induct minC ov hov with
  | case1 buf h1 h2 ih =>
      rw [chunkLoop_gt minC ov hov buf h2]
      exact ih
  | case2 buf h1 h2 =>
      rw [chunkLoop_exact minC ov hov buf (by omega)]
      show ([] : List Nat).length < minC
      simp only [List.length_nil]
      omega
  | case3 buf h1 =>
      rw [chunkLoop_small minC ov hov buf (by omega)]
      show buf.length < minC
      omega

/-- The loop emits no chunk exactly when the accumulator is below the
threshold. -/
theorem chunkLoop_chunks_nil_iff (minC ov : Nat) (hov : ov < minC) (buf : List Nat) :
    (chunkLoop minC ov hov buf).1 = [] ↔ buf.length < minC := by
  constructor
  · intro h
    by_contra hge
    rcases Nat.lt_or_ge minC buf.length with hgt | hle
    · rw [chunkLoop_gt minC ov hov buf hgt] at h
      exact List.cons_ne_nil _ _ h
    · have : buf.length = minC := by omega
      rw [chunkLoop_exact minC ov hov buf this] at h
      exact List.cons_ne_nil _ _ h
  · intro h
    rw [chunkLoop_small minC ov hov buf h]

/-- Whenever the loop emits at least one chunk, the first one is the first
`minC` bytes of the accumulator. -/
theorem chunkLoop_head (minC ov : Nat) (hov : ov < minC) (buf : List Nat)
    (h : minC ≤ buf.length) :
    ∃ t, (chunkLoop minC ov hov buf).1 = buf.take minC :: t := by
  rcases Nat.lt_or_ge minC buf.length with hgt | hle
  · rw [chunkLoop_gt minC ov hov buf hgt]
    exact ⟨_, rfl⟩
  · have hexact : buf.length = minC := by omega
    rw [chunkLoop_exact minC ov hov buf hexact]
    exact ⟨[], by rw [← hexact, List.take_length]⟩

/-- Every chunk emitted by the loop has length exactly `minC`. -/
theorem chunkLoop_chunk_length (minC ov : Nat) (hov : ov < minC) (buf : List Nat) :
    ∀ c ∈ (chunkLoop minC ov hov buf).1, c.length = minC := by
  induction buf using chunkLoop.induct minC ov hov with
  | case1 buf h1 h2 ih =>
      rw [chunkLoop_gt minC ov hov buf h2]
      intro c hc
      rcases List.mem_cons.mp hc with hc | hc
      · subst hc; rw [List.length_take]; omega
      · exact ih c hc
  | case2 buf h1 h2 =>
      rw [chunkLoop_exact minC ov hov buf (by omega)]
      intro c hc
      rcases List.mem_singleton.mp hc with rfl
      omega
  | case3 buf h1 =>
      rw [chunkLoop_small minC ov hov buf (by omega)]
      intro c hc
      exact absurd hc (List.not_mem_nil c)

/-- The pairwise overlap relation between an emitted chunk and its successor:
the last `ov` bytes of the first reappear as the first `ov` bytes of the
second.  For chunks of length `minC`, dropping `minC - ov` bytes leaves
exactly the last `ov` bytes. -/
def overlapRel (minC ov : Nat) (c c' : List Nat) : Prop :=
  c.drop (minC - ov) = c'.take ov

/-- Key slice identity: the tail of an extracted chunk coincides with the
head of the retained accumulator. -/
theorem take_drop_overlap (minC ov : Nat) (hov : ov < minC) (buf : List Nat) :
    (buf.take minC).drop (minC - ov) = (buf.drop (minC - ov)).take ov := by
  rw [List.drop_take]
  congr 1
  omega

/-- Adjacent chunks emitted within one run of the loop always overlap by
`ov` bytes. -/
theorem chunkLoop_chain (minC ov : Nat) (hov : ov < minC) (buf : List Nat) :
    List.Chain' (overlapRel minC ov) (chunkLoop minC ov hov buf).1 := by
  induction buf using chunkLoop.induct minC ov hov with
  | case1 buf h1 h2 ih =>
      rw [chunkLoop_gt minC ov hov buf h2]
      rw [List.chain'_cons']
      refine ⟨?_, ih⟩
      intro y hy
      have hne : (chunkLoop minC ov hov (buf.drop (minC - ov))).1 ≠ [] := by
        intro hnil
        rw [hnil] at hy
        simp at hy
      have hge : minC ≤ (buf.drop (minC - ov)).length := by
        by_contra hlt
        exact hne ((chunkLoop_chunks_nil_iff minC ov hov _).mpr (by omega))
      obtain ⟨t, ht⟩ := chunkLoop_head minC ov hov _ hge
      rw [ht] at hy
      simp only [List.head?_cons, Option.mem_def, Option.some.injEq] at hy
      subst hy
      show (buf.take minC).drop (minC - ov) = ((buf.drop (minC - ov)).take minC).take ov
      rw [List.take_take, Nat.min_eq_left (Nat.le_of_lt hov)]
      exact take_drop_overlap minC ov hov buf
  | case2 buf h1 h2 =>
      rw [chunkLoop_exact minC ov hov buf (by omega)]
      exact List.chain'_singleton _
  | case3 buf h1 =>
      rw [chunkLoop_small minC ov hov buf (by omega)]
      exact List.chain'_nil

/-- When the loop both emits chunks and leaves a nonempty accumulator, the
retained accumulator begins with the last `ov` bytes of the final chunk, and
is strictly longer than `ov` bytes. -/
theorem chunkLoop_last (minC ov : Nat) (hov : ov < minC) (buf : List Nat) :
    ∀ pre c, (chunkLoop minC ov hov buf).1 = pre ++ [c] →
      (chunkLoop minC ov hov buf).2 ≠ [] →
        (chunkLoop minC ov hov buf).2.take ov = c.drop (minC - ov) ∧
          ov < (chunkLoop minC ov hov buf).2.length := by
  induction buf using chunkLoop.induct minC ov hov with
  | case1 buf h1 h2 ih =>
      intro pre c hsplit hb
      rw [chunkLoop_gt minC ov hov buf h2] at hsplit hb ⊢
      simp only at hsplit hb ⊢
      by_cases hrec : (chunkLoop minC ov hov (buf.drop (minC - ov))).1 = []
      · -- the recursive call emitted nothing, so this chunk is the last one
        -- and the final accumulator is the retained suffix itself
        have hlt : (buf.drop (minC - ov)).length < minC :=
          (chunkLoop_chunks_nil_iff minC ov hov _).mp hrec
        rw [chunkLoop_small minC ov hov _ hlt] at hsplit hb ⊢
        simp only at hsplit hb ⊢
        have hc : c = buf.take minC := by
          cases pre with
          | nil => simpa using hsplit.symm
          | cons p ps =>
              exfalso
              have := congrArg List.length hsplit
              simp at this
        subst hc
        constructor
        · exact (take_drop_overlap minC ov hov buf).symm
        · rw [List.length_drop]
          omega
      · -- the last chunk comes from the recursive call
        cases pre with
        | nil =>
            exfalso
            simp only [List.nil_append, List.cons.injEq] at hsplit
            exact hrec hsplit.2
        | cons p ps =>
            simp only [List.cons_append, List.cons.injEq] at hsplit
            exact ih ps c hsplit.2 hb
  | case2 buf h1 h2 =>
      intro pre c hsplit hb
      rw [chunkLoop_exact minC ov hov buf (by omega)] at hb
      simp at hb
  | case3 buf h1 =>
      intro pre c hsplit hb
      rw [chunkLoop_small minC ov hov buf (by omega)] at hsplit
      simp at hsplit

/-! ## Python string helpers

The model works on `String` values whose logical content is their `data`
field (a `List Char`).  `pyStrip`, `pyLower`, `pyLen` and `strContains`
embed Python's `str.strip()`, `str.lower()`, `len()` and the substring test
`pat in hay`. -/

/-- `str.strip()` on the character list: drop leading whitespace, then drop
trailing whitespace (implemented by reversing, dropping, reversing back). -/
def trimChars (l : List Char) : List Char :=
  (((l.dropWhile Char.isWhitespace).reverse.dropWhile Char.isWhitespace)).reverse

/-- Python `s.strip()`. -/
def pyStrip (s : String) : String := ⟨trimChars s.data⟩

/-- Python `s.lower()`. -/
def pyLower (s : String) : String := ⟨s.data.map Char.toLower⟩

/-- Python `len(s)` (number of characters). -/
def pyLen (s : String) : Nat := s.data.length

/-- Does the first list start with the second? -/
def listStartsWith : List Char → List Char → Bool
  | _, [] => true
  | [], _ => false
  | a :: as, b :: bs => a == b && listStartsWith as bs

/-- Contiguous-sublist test on character lists. -/
def listContains : List Char → List Char → Bool
  | [], pat => pat.isEmpty
  | a :: as, pat => listStartsWith (a :: as) pat || listContains as pat

/-- Python `pat in hay`: substring containment. -/
def strContains (hay pat : String) : Bool := listContains hay.data pat.data

/-- Python `" ".join(parts)`. -/
def joinSpace (parts : List String) : String :=
  ⟨List.intercalate [' '] (parts.map String.data)⟩

/-! ## Segment post-processing (transcribe_audio_chunk, lines 307–344)

A `Segment` models one segment returned by the external inference engine:
its raw text and its self-reported no-speech probability.  The probability
is embedded as a rational; the source compares it against the literal `0.5`,
which is exact, so the embedding is faithful for the comparison. -/

structure Segment where
  text : String
  no_speech_prob : ℚ
deriving DecidableEq

/-- The source's fixed no-speech threshold, the literal `0.5` of line 322.
Written in lowest terms by its constructor so that concrete comparisons
reduce; `no_speech_threshold_eq` checks it against the literal. -/
def no_speech_threshold : ℚ := ⟨1, 2, by decide, by decide⟩

theorem no_speech_threshold_eq : no_speech_threshold = 0.5 := by
  show Rat.mk' 1 2 = 0.5
  rw [Rat.mk'_eq_divInt, Rat.divInt_eq_div]
  norm_num

/-- Lines 316–320: the fixed denylist of known filler/hallucination
phrases. -/
def hallucination_patterns : List String :=
  ["thank you", "thanks", "subscribe", "please subscribe",
    "like and subscribe", "thank you for watching",
    "thanks for watching", "please like and subscribe"]

/-- Line 326: `any(pattern in segment_lower for pattern in
hallucination_patterns)` where `segment_lower = segment_text.lower()`. -/
def hallucinationHit (segment_text : String) : Bool :=
  hallucination_patterns.any (fun pattern => strContains (pyLower segment_text) pattern)

/-- The segment loop of lines 308–327, collecting `text_parts` in order:

```
for segment in segments:
    segment_text = segment.text.strip()
    if segment_text and len(segment_text) >= 2:
        segment_lower = segment_text.lower()
        if segment.no_speech_prob > 0.5:
            continue
        if not any(pattern in segment_lower for pattern in hallucination_patterns):
            text_parts.append(segment_text)
``` -/
def collect_parts : List Segment → List String
  | [] => []
  | seg :: rest =>
      let segment_text := pyStrip seg.text
      if segment_text ≠ "" ∧ 2 ≤ pyLen segment_text then
        if seg.no_speech_prob > no_speech_threshold then
          collect_parts rest
        else if hallucinationHit segment_text then
          collect_parts rest
        else
          segment_text :: collect_parts rest
      else
        collect_parts rest

/-- Line 329: `full_text = " ".join(text_parts).strip()`. -/
def full_text_of (segs : List Segment) : String :=
  pyStrip (joinSpace (collect_parts segs))

/-- The dict `{"text": ..., "language": ...}` returned by
`transcribe_audio_chunk` on success. -/
structure ChunkResult where
  text : String
  language : String
deriving DecidableEq

/-- Lines 329–344 of `transcribe_audio_chunk`: return the joined text and
language when some text survived the filtering, `None` otherwise (the
"likely silence" path).  The segments and the detected language come from
the external inference engine and enter as parameters. -/
def transcribe_audio_chunk_result (segs : List Segment) (lang : String) :
    Option ChunkResult :=
  let ft := full_text_of segs
  if ft ≠ "" then some ⟨ft, lang⟩ else none

/-! ## Worker-result dispatch (process_audio_chunk, lines 395–440) -/

/-- Server-to-client websocket messages (JSON objects in the source,
lines 411–416, 423–426, 434–438, 449–454, 474–477, 485–491, 560–563). -/
inductive WsMsg where
  | connected (model : String)
  | started (source : String)
  | stopped
  | pong
  | transcription (source text language : String)
  | silence (source : String)
  | errorMsg (source message : String)
  | errorNoSource (message : String)
deriving DecidableEq, Repr

/-- The message text of the `AttributeError` that Python raises when
`result.get(...)` is evaluated on `None` (the exact wording is immaterial to
the theorems; only the fact that the branch produces an error-typed message
matters). -/
def noneGetError : String := "NoneType object has no attribute get"

/-- `process_audio_chunk` (lines 395–440), as a function from the worker
outcome to the single message sent to the client.

The worker outcome is `.error e` when `transcribe_audio_chunk` raised an
exception, and `.ok result` when it returned (with `result = none` for the
silence path).  Lines 407: `text = result.get("text", "").strip() if
result.get("text") else ""` — when `result` is `None`, evaluating
`result.get("text")` raises `AttributeError`, which falls to the
`except Exception` handler of line 430 and is sent as an error message. -/
def process_audio_chunk (source_type : String)
    (outcome : Except String (Option ChunkResult)) : WsMsg :=
  match outcome with
  | .error e => .errorMsg source_type e
  | .ok result =>
      match result with
      | none => .errorMsg source_type noneGetError
      | some r =>
          let text := if r.text ≠ "" then pyStrip r.text else ""
          if text ≠ "" then
            .transcription source_type text r.language
          else
            .silence source_type

/-! ## One-shot request path (transcribe_audio_request, lines 356–393) -/

/-- The JSON envelope written by the `/transcribe` handler.  `language` and
`error` are `Option`s: `none` models the key being absent from the JSON
object. -/
structure TranscribeResponse where
  success : Bool
  text : String
  language : Option String
  error : Option String
deriving DecidableEq, Repr

/-- `transcribe_audio_request` (lines 356–393).  `dataLen` is
`len(audio_data)`; `outcome` is what the call to `transcribe_audio_chunk`
would produce (`.error e` for a raised exception, `.ok` for a normal
return) — the short-circuit path returns without consulting it.

```
min_size = 2000 if not is_webm else 1000
if len(audio_data) < min_size: return {"success": True, "text": "", "language": "en"}
result = transcribe_audio_chunk(audio_data, is_webm)
if result is None: return {"success": True, "text": "", "language": "en"}
text = result.get("text", "").strip()
return {"success": True, "text": text, "language": result.get("language", "en")}
except: return {"success": False, "error": str(e), "text": ""}
``` -/
def transcribe_audio_request (dataLen : Nat) (is_webm : Bool)
    (outcome : Except String (Option ChunkResult)) : TranscribeResponse :=
  let min_size := if is_webm then 1000 else 2000
  if dataLen < min_size then
    ⟨true, "", some "en", none⟩
  else
    match outcome with
    | .error e => ⟨false, "", none, some e⟩
    | .ok none => ⟨true, "", some "en", none⟩
    | .ok (some r) => ⟨true, pyStrip r.text, some r.language, none⟩

/-! ## Connection session and buffer registry (handle_websocket, lines 442–574) -/

/-- The parse of an incoming text message, i.e. the result of
`json.loads(message)` followed by `data.get("type")` (lines 462–464):
a recognized control message, some other successfully-parsed JSON object
whose `type` is not recognized (ignored, line 492's `continue`), or a parse
failure (`json.JSONDecodeError`). -/
inductive TextMsg where
  | startMsg (source : Option String)
  | stopMsg
  | pingMsg
  | unknownMsg
  | invalidJson
deriving DecidableEq

/-- One incoming websocket message: text (control) or binary (PCM audio). -/
inductive InMsg where
  | text (t : TextMsg)
  | binary (b : List Nat)
deriving DecidableEq

/-- The process-global `audio_buffers` dict, as an association list. -/
abbrev Buffers := List (String × List Nat)

/-- Python `k in d`. -/
def dictMem (d : Buffers) (k : String) : Bool :=
  d.any (fun p => p.1 == k)

/-- Python `d[k] = v`: overwrite the existing entry, else append a new one. -/
def dictSet (d : Buffers) (k : String) (v : List Nat) : Buffers :=
  if dictMem d k then d.map (fun p => if p.1 == k then (k, v) else p)
  else d ++ [(k, v)]

/-- Python `d[k]` (the modelled paths read the key only when present; absent
keys default to the empty buffer). -/
def dictGet (d : Buffers) (k : String) : List Nat :=
  match d.find? (fun p => p.1 == k) with
  | some p => p.2
  | none => []

/-- Python `del d[k]`. -/
def dictDel (d : Buffers) (k : String) : Buffers :=
  d.filter (fun p => p.1 != k)

/-- The per-connection state of the `handle_websocket` coroutine: the
(process-global) buffer registry together with the local variables
`source_type` and `buffer_key` (line 456–457). -/
structure SessState where
  buffers : Buffers
  source_type : Option String
  buffer_key : Option String
deriving DecidableEq

/-- The connection identity `websocket.remote_address`, kept abstract as a
fixed label. -/
def clientAddr : String := "client"

/-- Line 468: `buffer_key = f"{client_address}_{source_type}"`. -/
def mkKey (source : String) : String := clientAddr ++ "_" ++ source

/-- State at connection open: no explicit start yet; the registry holds no
buffer for this connection. -/
def initialSession : SessState := ⟨[], none, none⟩

/-- The effect of one handled message: the successor state, the messages
sent to the client, and the `(source, chunk)` pairs submitted to the worker
pool via `asyncio.create_task(process_audio_chunk(...))`. -/
structure StepResult where
  state : SessState
  sent : List WsMsg
  submitted : List (String × List Nat)
deriving DecidableEq

/-- The message of the `KeyError` raised when a binary message arrives while
`buffer_key` names a deleted buffer (possible after a "stop"); it is caught
by the handler of line 557 and reported as an error message. -/
def keyErrorMsg : String := "KeyError"

/-- Text-message (control) handling, lines 462–492 plus the
`except json.JSONDecodeError` branch of lines 530–556.  For a *text*
message, that branch's `isinstance(message, bytes)` test is false, so a
malformed JSON text is ignored entirely. -/
def handleText (st : SessState) (t : TextMsg) : StepResult :=
  match t with
  | .startMsg src =>
      let source_type := src.getD "microphone"
      let key := mkKey source_type
      ⟨⟨dictSet st.buffers key [], some source_type, some key⟩,
        [WsMsg.started source_type], []⟩
  | .stopMsg =>
      let bufs :=
        match st.buffer_key with
        | some key =>
            if dictMem st.buffers key then dictDel st.buffers key else st.buffers
        | none => st.buffers
      ⟨⟨bufs, st.source_type, st.buffer_key⟩, [WsMsg.stopped], []⟩
  | .pingMsg => ⟨st, [WsMsg.pong], []⟩
  | .unknownMsg => ⟨st, [], []⟩
  | .invalidJson => ⟨st, [], []⟩

/-- Binary-message handling, lines 495–528: auto-start an implicit
"microphone" session if none is active (lines 496–500), then extend, trim
and chunk the session buffer (`feedServer`) and submit every extracted chunk
together with its source label.  When `buffer_key` names a key that is no
longer in the registry, `audio_buffers[buffer_key]` raises `KeyError`,
caught at line 557 and sent as an error message. -/
def handleBinary (st : SessState) (msg : List Nat) : StepResult :=
  let st1 : SessState :=
    match st.source_type with
    | none =>
        let key := mkKey "microphone"
        let bufs :=
          if dictMem st.buffers key then st.buffers else dictSet st.buffers key []
        ⟨bufs, some "microphone", some key⟩
    | some _ => st
  match st1.buffer_key with
  | none => ⟨st1, [], []⟩
  | some key =>
      if dictMem st1.buffers key then
        let r := feedServer (dictGet st1.buffers key) msg
        ⟨⟨dictSet st1.buffers key r.buffer, st1.source_type, st1.buffer_key⟩, [],
          r.chunks.map (fun c => (st1.source_type.getD "microphone", c))⟩
      else
        ⟨st1, [WsMsg.errorNoSource keyErrorMsg], []⟩

/-- One iteration of the `async for message in websocket` loop. -/
def stepMsg (st : SessState) (m : InMsg) : StepResult :=
  match m with
  | .text t => handleText st t
  | .binary b => handleBinary st b

/-- The `finally` block of lines 571–574: on disconnect, delete the buffer
named by the current `buffer_key` (if any and still present), returning the
registry left behind. -/
def disconnectCleanup (st : SessState) : Buffers :=
  match st.buffer_key with
  | some key =>
      if dictMem st.buffers key then dictDel st.buffers key else st.buffers
  | none => st.buffers

/-! ### Field-wise description of one feed -/

/-- What one feed does, field by field: the dropped count is the excess over
`maxB` (truncated subtraction: zero when within bounds), and chunking runs on
the suffix obtained by dropping exactly that many bytes from the front of the
extended accumulator. -/
theorem feed_spec (minC ov maxB : Nat) (hov : ov < minC) (buf msg : List Nat) :
    (feed minC ov maxB hov buf msg).dropped = (buf ++ msg).length - maxB ∧
    (feed minC ov maxB hov buf msg).chunks =
      (chunkLoop minC ov hov ((buf ++ msg).drop ((buf ++ msg).length - maxB))).1 ∧
    (feed minC ov maxB hov buf msg).buffer =
      (chunkLoop minC ov hov ((buf ++ msg).drop ((buf ++ msg).length - maxB))).2 := by
  simp only [feed]
  split
  · refine ⟨?_, ?_, ?_⟩ <;> simp only []
  · rename_i h
    have h0 : (buf ++ msg).length - maxB = 0 := Nat.sub_eq_zero_of_le (by omega)
    rw [h0, List.drop_zero]
    refine ⟨?_, ?_, ?_⟩ <;> simp only []

/-- The loop postcondition lifted to a whole feed: the final accumulator is
always strictly below the chunk trigger threshold. -/
theorem feed_buf_lt (minC ov maxB : Nat) (hov : ov < minC) (buf msg : List Nat) :
    (feed minC ov maxB hov buf msg).buffer.length < minC := by
  simp only [feed]
  split
  · simp only []
    exact chunkLoop_buf_lt minC ov hov _
  · simp only []
    exact chunkLoop_buf_lt minC ov hov _

/-! ## Claim theorems -/

/-- **C5**: on every feed, exactly `length - maxBufferBytes` bytes are
dropped from the front of the extended accumulator when its length exceeds
`maxBufferBytes` (and zero otherwise — the truncated subtraction is `0` in
that case), and the drop happens before any chunk extraction: the chunks and
the final buffer are those of the extraction loop run on the suffix that
remains after dropping `dropped` bytes from the front. -/
theorem c5_overflow_drop (buf msg : List Nat) :
    (feedServer buf msg).dropped = (buf ++ msg).length - MAX_BUFFER_SIZE ∧
    (feedServer buf msg).chunks =
      (chunkLoopServer ((buf ++ msg).drop ((feedServer buf msg).dropped))).1 ∧
    (feedServer buf msg).buffer =
      (chunkLoopServer ((buf ++ msg).drop ((feedServer buf msg).dropped))).2 := by
  obtain ⟨h1, h2, h3⟩ :=
    feed_spec MIN_CHUNK_SIZE OVERLAP_SIZE MAX_BUFFER_SIZE hovServer buf msg
  unfold feedServer chunkLoopServer
  rw [h1, h2, h3]
  exact ⟨rfl, rfl, rfl⟩

/-- **C10**: after any binary message is processed, the session buffer is
left strictly below `minChunkBytes` — the extraction loop always drains the
accumulator below the trigger threshold (and hence far below
`maxBufferBytes`). -/
theorem c10_buffer_drained (buf msg : List Nat) :
    (feedServer buf msg).buffer.length < MIN_CHUNK_SIZE ∧
    (feedServer buf msg).buffer.length < MAX_BUFFER_SIZE := by
  have hmain : (feedServer buf msg).buffer.length < MIN_CHUNK_SIZE :=
    feed_buf_lt MIN_CHUNK_SIZE OVERLAP_SIZE MAX_BUFFER_SIZE hovServer buf msg
  exact ⟨hmain, lt_trans hmain (by norm_num [MIN_CHUNK_SIZE, MAX_BUFFER_SIZE])⟩

/-- **C7**: a one-shot request whose payload is below the minimum size
threshold (2000 bytes for raw PCM, 1000 for a recognized WebM container)
returns `success=true, text="", language="en"` — uniformly in the inference
outcome, i.e. without consulting the inference capability at all. -/
theorem c7_short_circuit (dataLen : Nat) (is_webm : Bool)
    (outcome : Except String (Option ChunkResult))
    (h : dataLen < if is_webm then 1000 else 2000) :
    transcribe_audio_request dataLen is_webm outcome = ⟨true, "", some "en", none⟩ := by
  unfold transcribe_audio_request
  rw [if_pos h]

/-- Witness for **C7**: a 500-byte PCM body is below the 2000-byte PCM
threshold and yields exactly the empty-success envelope, whatever the
inference capability would have done. -/
theorem c7_short_circuit_witness :
    (500 < if false then 1000 else 2000) ∧
    transcribe_audio_request 500 false (Except.error "boom") =
      ⟨true, "", some "en", none⟩ :=
  ⟨by decide, c7_short_circuit 500 false (Except.error "boom") (by decide)⟩

/-- **C9**: a text message that is not valid JSON is ignored: the
`json.JSONDecodeError` handler falls through (the message is not `bytes`),
so the session state — registry, source, buffer key — is unchanged, nothing
is sent to the client, no chunk is submitted, and the receive loop
continues (the handler returns to the `async for` loop rather than
raising). -/
theorem c9_invalid_json_ignored (st : SessState) :
    stepMsg st (InMsg.text TextMsg.invalidJson) = ⟨st, [], []⟩ := rfl

/-- **C2**: each iteration of the extraction loop takes exactly the first
`minChunkBytes` bytes as the chunk; when the pre-extraction accumulator is
strictly longer than `minChunkBytes` the loop continues on the suffix of the
original accumulator starting at offset `minChunkBytes - overlapBytes`, and
when it is exactly `minChunkBytes` long the accumulator is cleared entirely;
consequently feeding `minChunkBytes + 1000` bytes to an empty buffer emits
exactly one chunk of size `minChunkBytes` and leaves a buffer of
`1000 + overlapBytes` bytes. -/
theorem c2_chunk_extraction :
    (∀ buf : List Nat, MIN_CHUNK_SIZE < buf.length →
      chunkLoopServer buf =
        ((buf.take MIN_CHUNK_SIZE) ::
            (chunkLoopServer (buf.drop (MIN_CHUNK_SIZE - OVERLAP_SIZE))).1,
          (chunkLoopServer (buf.drop (MIN_CHUNK_SIZE - OVERLAP_SIZE))).2)) ∧
    (∀ buf : List Nat, buf.length = MIN_CHUNK_SIZE →
      chunkLoopServer buf = ([buf], [])) ∧
    (∀ msg : List Nat, msg.length = MIN_CHUNK_SIZE + 1000 →
      (feedServer [] msg).chunks = [msg.take MIN_CHUNK_SIZE] ∧
      (msg.take MIN_CHUNK_SIZE).length = MIN_CHUNK_SIZE ∧
      (feedServer [] msg).buffer.length = 1000 + OVERLAP_SIZE) := by
  refine ⟨?_, ?_, ?_⟩
  · intro buf h
    unfold chunkLoopServer
    exact chunkLoop_gt MIN_CHUNK_SIZE OVERLAP_SIZE hovServer buf h
  · intro buf h
    unfold chunkLoopServer
    exact chunkLoop_exact MIN_CHUNK_SIZE OVERLAP_SIZE hovServer buf h
  · intro msg hmsg
    obtain ⟨h1, h2, h3⟩ :=
      feed_spec MIN_CHUNK_SIZE OVERLAP_SIZE MAX_BUFFER_SIZE hovServer [] msg
    rw [List.nil_append] at h1 h2 h3
    have hmax : msg.length - MAX_BUFFER_SIZE = 0 := by
      rw [hmsg]
      norm_num [MIN_CHUNK_SIZE, MAX_BUFFER_SIZE]
    rw [hmax, List.drop_zero] at h2 h3
    have hgt : MIN_CHUNK_SIZE < msg.length := by
      rw [hmsg]; omega
    rw [chunkLoop_gt MIN_CHUNK_SIZE OVERLAP_SIZE hovServer msg hgt] at h2 h3
    have hsmall : (msg.drop (MIN_CHUNK_SIZE - OVERLAP_SIZE)).length < MIN_CHUNK_SIZE := by
      rw [List.length_drop, hmsg]
      norm_num [MIN_CHUNK_SIZE, OVERLAP_SIZE]
    rw [chunkLoop_small MIN_CHUNK_SIZE OVERLAP_SIZE hovServer _ hsmall] at h2 h3
    simp only [] at h2 h3
    refine ⟨?_, ?_, ?_⟩
    · unfold feedServer
      rw [h2]
    · rw [List.length_take]
      have : MIN_CHUNK_SIZE ≤ msg.length := le_of_lt hgt
      omega
    · unfold feedServer
      rw [h3, List.length_drop, hmsg]
      norm_num [MIN_CHUNK_SIZE, OVERLAP_SIZE]

/-- Witness for **C2** at concrete inputs: a 48001-byte buffer for the
strict-overshoot step, a 48000-byte buffer for the exact-length clear, and a
49000-byte message for the end-to-end scenario. -/
theorem c2_chunk_extraction_witness :
    (MIN_CHUNK_SIZE < (List.replicate 48001 (0 : Nat)).length ∧
      chunkLoopServer (List.replicate 48001 (0 : Nat)) =
        (((List.replicate 48001 (0 : Nat)).take MIN_CHUNK_SIZE) ::
            (chunkLoopServer ((List.replicate 48001 (0 : Nat)).drop
              (MIN_CHUNK_SIZE - OVERLAP_SIZE))).1,
          (chunkLoopServer ((List.replicate 48001 (0 : Nat)).drop
            (MIN_CHUNK_SIZE - OVERLAP_SIZE))).2)) ∧
    ((List.replicate 48000 (0 : Nat)).length = MIN_CHUNK_SIZE ∧
      chunkLoopServer (List.replicate 48000 (0 : Nat)) =
        ([List.replicate 48000 (0 : Nat)], [])) ∧
    ((List.replicate 49000 (0 : Nat)).length = MIN_CHUNK_SIZE + 1000 ∧
      (feedServer [] (List.replicate 49000 (0 : Nat))).chunks =
        [(List.replicate 49000 (0 : Nat)).take MIN_CHUNK_SIZE] ∧
      ((List.replicate 49000 (0 : Nat)).take MIN_CHUNK_SIZE).length = MIN_CHUNK_SIZE ∧
      (feedServer [] (List.replicate 49000 (0 : Nat))).buffer.length =
        1000 + OVERLAP_SIZE) := by
  have hlen1 : MIN_CHUNK_SIZE < (List.replicate 48001 (0 : Nat)).length := by
    rw [List.length_replicate]; decide
  have hlen2 : (List.replicate 48000 (0 : Nat)).length = MIN_CHUNK_SIZE := by
    rw [List.length_replicate]; decide
  have hlen3 : (List.replicate 49000 (0 : Nat)).length = MIN_CHUNK_SIZE + 1000 := by
    rw [List.length_replicate]; decide
  exact ⟨⟨hlen1, c2_chunk_extraction.1 _ hlen1⟩,
    ⟨hlen2, c2_chunk_extraction.2.1 _ hlen2⟩,
    ⟨hlen3, c2_chunk_extraction.2.2 _ hlen3⟩⟩

/-! ### Feed-level overlap lemmas (for the cross-chunk overlap claim) -/

/-- Adjacent chunks emitted by a single feed overlap by `ov` bytes. -/
theorem feed_chain (minC ov maxB : Nat) (hov : ov < minC) (buf msg : List Nat) :
    List.Chain' (overlapRel minC ov) (feed minC ov maxB hov buf msg).chunks := by
  obtain ⟨h1, h2, h3⟩ := feed_spec minC ov maxB hov buf msg
  rw [h2]
  exact chunkLoop_chain minC ov hov _

/-- Any two adjacent chunks in the output of a single feed overlap by `ov`
bytes (decomposition form of `feed_chain`). -/
theorem feed_adjacent (minC ov maxB : Nat) (hov : ov < minC) (buf msg : List Nat)
    (pre : List (List Nat)) (c c' : List Nat) (post : List (List Nat))
    (h : (feed minC ov maxB hov buf msg).chunks = pre ++ c :: c' :: post) :
    overlapRel minC ov c c' := by
  have hchain := feed_chain minC ov maxB hov buf msg
  rw [h] at hchain
  have h2 := (List.chain'_append.mp hchain).2.1
  exact (List.chain'_cons.mp h2).1

/-- When a feed emits chunks and leaves a nonempty accumulator, the
accumulator starts with the last `ov` bytes of the final emitted chunk and
is strictly longer than `ov` bytes. -/
theorem feed_last (minC ov maxB : Nat) (hov : ov < minC) (buf msg : List Nat)
    (pre : List (List Nat)) (c : List Nat)
    (hsplit : (feed minC ov maxB hov buf msg).chunks = pre ++ [c])
    (hb : (feed minC ov maxB hov buf msg).buffer ≠ []) :
    (feed minC ov maxB hov buf msg).buffer.take ov = c.drop (minC - ov) ∧
      ov < (feed minC ov maxB hov buf msg).buffer.length := by
  obtain ⟨h1, h2, h3⟩ := feed_spec minC ov maxB hov buf msg
  rw [h2] at hsplit
  rw [h3] at hb ⊢
  exact chunkLoop_last minC ov hov _ pre c hsplit hb

/-- A feed with no overflow drop and no emitted chunk leaves exactly the
extended accumulator. -/
theorem feed_no_chunk_buffer (minC ov maxB : Nat) (hov : ov < minC) (buf msg : List Nat)
    (hd : (feed minC ov maxB hov buf msg).dropped = 0)
    (hc : (feed minC ov maxB hov buf msg).chunks = []) :
    (feed minC ov maxB hov buf msg).buffer = buf ++ msg := by
  obtain ⟨h1, h2, h3⟩ := feed_spec minC ov maxB hov buf msg
  have hz : (buf ++ msg).length - maxB = 0 := by rw [hd] at h1; exact h1.symm
  rw [hz, List.drop_zero] at h2 h3
  have hx : (chunkLoop minC ov hov (buf ++ msg)).1 = [] := by rw [← h2]; exact hc
  have hlt : (buf ++ msg).length < minC :=
    (chunkLoop_chunks_nil_iff minC ov hov _).mp hx
  rw [h3, chunkLoop_small minC ov hov _ hlt]

/-- A feed with no overflow drop that emits at least one chunk starts that
chunk with the first `ov` bytes of the pre-existing buffer (when the buffer
already held at least `ov` bytes). -/
theorem feed_first_chunk (minC ov maxB : Nat) (hov : ov < minC) (buf msg : List Nat)
    (c : List Nat) (rest : List (List Nat))
    (hd : (feed minC ov maxB hov buf msg).dropped = 0)
    (hc : (feed minC ov maxB hov buf msg).chunks = c :: rest)
    (hbuf : ov ≤ buf.length) :
    c.take ov = buf.take ov := by
  obtain ⟨h1, h2, h3⟩ := feed_spec minC ov maxB hov buf msg
  have hz : (buf ++ msg).length - maxB = 0 := by rw [hd] at h1; exact h1.symm
  rw [hz, List.drop_zero] at h2
  have hx : c :: rest = (chunkLoop minC ov hov (buf ++ msg)).1 := hc.symm.trans h2
  have hne : (chunkLoop minC ov hov (buf ++ msg)).1 ≠ [] := by
    rw [← hx]; exact List.cons_ne_nil _ _
  have hge : minC ≤ (buf ++ msg).length := by
    by_contra hlt
    exact hne ((chunkLoop_chunks_nil_iff minC ov hov _).mpr (by omega))
  obtain ⟨t, ht⟩ := chunkLoop_head minC ov hov _ hge
  rw [ht] at hx
  have hceq : c = (buf ++ msg).take minC := by
    injection hx
  calc c.take ov = ((buf ++ msg).take minC).take ov := by rw [hceq]
    _ = (buf ++ msg).take ov := by
        rw [List.take_take, Nat.min_eq_left (Nat.le_of_lt hov)]
    _ = buf.take ov := List.take_append_of_le_length hbuf

/-- **C8**: overlap between consecutive chunks of the same session buffer.
(1) Within one feed, every adjacent pair of emitted chunks satisfies the
overlap relation (the last `overlapBytes` bytes of the earlier chunk are the
first `overlapBytes` bytes of the later one).  Across feeds: (2) when a feed
ends with chunks emitted and a nonempty buffer (i.e. no exact-length clear),
the buffer retains the final chunk's last `overlapBytes` bytes at its head;
(3) a later feed with no overflow drop and no emission only appends, so that
head is preserved; and (4) the next chunk eventually emitted by a feed with
no overflow drop begins with exactly that retained head.  Together these
give the claim for any pair of consecutive chunks not separated by an
exact-length clear or an overflow drop. -/
theorem c8_chunk_overlap :
    (∀ buf msg : List Nat, ∀ pre : List (List Nat), ∀ c c' : List Nat,
      ∀ post : List (List Nat),
      (feedServer buf msg).chunks = pre ++ c :: c' :: post →
      c.drop (MIN_CHUNK_SIZE - OVERLAP_SIZE) = c'.take OVERLAP_SIZE) ∧
    (∀ buf msg : List Nat, ∀ pre : List (List Nat), ∀ c : List Nat,
      (feedServer buf msg).chunks = pre ++ [c] →
      (feedServer buf msg).buffer ≠ [] →
        (feedServer buf msg).buffer.take OVERLAP_SIZE =
            c.drop (MIN_CHUNK_SIZE - OVERLAP_SIZE) ∧
          OVERLAP_SIZE < (feedServer buf msg).buffer.length) ∧
    (∀ buf msg : List Nat,
      (feedServer buf msg).dropped = 0 →
      (feedServer buf msg).chunks = [] →
      (feedServer buf msg).buffer = buf ++ msg) ∧
    (∀ buf msg : List Nat, ∀ c : List Nat, ∀ rest : List (List Nat),
      (feedServer buf msg).dropped = 0 →
      (feedServer buf msg).chunks = c :: rest →
      OVERLAP_SIZE ≤ buf.length →
      c.take OVERLAP_SIZE = buf.take OVERLAP_SIZE) := by
  refine ⟨?_, ?_, ?_, ?_⟩
  · intro buf msg pre c c' post h
    unfold feedServer at h
    exact feed_adjacent MIN_CHUNK_SIZE OVERLAP_SIZE MAX_BUFFER_SIZE hovServer buf msg
      pre c c' post h
  · intro buf msg pre c hsplit hb
    unfold feedServer at hsplit hb ⊢
    exact feed_last MIN_CHUNK_SIZE OVERLAP_SIZE MAX_BUFFER_SIZE hovServer buf msg
      pre c hsplit hb
  · intro buf msg hd hc
    unfold feedServer at hd hc ⊢
    exact feed_no_chunk_buffer MIN_CHUNK_SIZE OVERLAP_SIZE MAX_BUFFER_SIZE hovServer
      buf msg hd hc
  · intro buf msg c rest hd hc hbuf
    unfold feedServer at hd hc
    exact feed_first_chunk MIN_CHUNK_SIZE OVERLAP_SIZE MAX_BUFFER_SIZE hovServer
      buf msg c rest hd hc hbuf

/-! ### Concrete feed evaluations used by the overlap witness -/

theorem feedServer_eval_49000 :
    (feedServer [] (List.replicate 49000 (0 : Nat))).chunks =
        [(List.replicate 49000 (0 : Nat)).take MIN_CHUNK_SIZE] ∧
    (feedServer [] (List.replicate 49000 (0 : Nat))).buffer =
        (List.replicate 49000 (0 : Nat)).drop (MIN_CHUNK_SIZE - OVERLAP_SIZE) ∧
    (feedServer [] (List.replicate 49000 (0 : Nat))).dropped = 0 := by
  obtain ⟨h1, h2, h3⟩ := feed_spec MIN_CHUNK_SIZE OVERLAP_SIZE MAX_BUFFER_SIZE hovServer
    [] (List.replicate 49000 (0 : Nat))
  rw [List.nil_append] at h1 h2 h3
  have hz : (List.replicate 49000 (0 : Nat)).length - MAX_BUFFER_SIZE = 0 := by
    rw [List.length_replicate]; decide
  rw [hz] at h1
  rw [hz, List.drop_zero] at h2 h3
  have hgt : MIN_CHUNK_SIZE < (List.replicate 49000 (0 : Nat)).length := by
    rw [List.length_replicate]; decide
  rw [chunkLoop_gt MIN_CHUNK_SIZE OVERLAP_SIZE hovServer _ hgt] at h2 h3
  have hsmall : ((List.replicate 49000 (0 : Nat)).drop
      (MIN_CHUNK_SIZE - OVERLAP_SIZE)).length < MIN_CHUNK_SIZE := by
    rw [List.length_drop, List.length_replicate]; decide
  rw [chunkLoop_small MIN_CHUNK_SIZE OVERLAP_SIZE hovServer _ hsmall] at h2 h3
  simp only [] at h2 h3
  unfold feedServer
  exact ⟨h2, h3, h1⟩

theorem feedServer_eval_10 :
    (feedServer [] (List.replicate 10 (0 : Nat))).dropped = 0 ∧
    (feedServer [] (List.replicate 10 (0 : Nat))).chunks = [] := by
  obtain ⟨h1, h2, h3⟩ := feed_spec MIN_CHUNK_SIZE OVERLAP_SIZE MAX_BUFFER_SIZE hovServer
    [] (List.replicate 10 (0 : Nat))
  rw [List.nil_append] at h1 h2
  have hz : (List.replicate 10 (0 : Nat)).length - MAX_BUFFER_SIZE = 0 := by
    rw [List.length_replicate]; decide
  rw [hz] at h1
  rw [hz, List.drop_zero] at h2
  have hlt : (List.replicate 10 (0 : Nat)).length < MIN_CHUNK_SIZE := by
    rw [List.length_replicate]; decide
  rw [chunkLoop_small MIN_CHUNK_SIZE OVERLAP_SIZE hovServer _ hlt] at h2
  simp only [] at h2
  unfold feedServer
  exact ⟨h1, h2⟩

theorem feedServer_eval_exact :
    (feedServer (List.replicate 17000 (0 : Nat)) (List.replicate 31000 (1 : Nat))).dropped
        = 0 ∧
    (feedServer (List.replicate 17000 (0 : Nat)) (List.replicate 31000 (1 : Nat))).chunks =
        (List.replicate 17000 (0 : Nat) ++ List.replicate 31000 (1 : Nat)) :: [] := by
  obtain ⟨h1, h2, h3⟩ := feed_spec MIN_CHUNK_SIZE OVERLAP_SIZE MAX_BUFFER_SIZE hovServer
    (List.replicate 17000 (0 : Nat)) (List.replicate 31000 (1 : Nat))
  have hlen : (List.replicate 17000 (0 : Nat) ++ List.replicate 31000 (1 : Nat)).length =
      MIN_CHUNK_SIZE := by
    rw [List.length_append, List.length_replicate, List.length_replicate]; decide
  have hz : (List.replicate 17000 (0 : Nat) ++ List.replicate 31000 (1 : Nat)).length -
      MAX_BUFFER_SIZE = 0 := by
    rw [hlen]; decide
  rw [hz] at h1
  rw [hz, List.drop_zero] at h2
  rw [chunkLoop_exact MIN_CHUNK_SIZE OVERLAP_SIZE hovServer _ hlen] at h2
  simp only [] at h2
  unfold feedServer
  exact ⟨h1, h2⟩

theorem feedServer_eval_80000 :
    (feedServer [] (List.replicate 80000 (0 : Nat))).chunks =
      [(List.replicate 80000 (0 : Nat)).take MIN_CHUNK_SIZE,
        (List.replicate 80000 (0 : Nat)).drop (MIN_CHUNK_SIZE - OVERLAP_SIZE)] := by
  obtain ⟨h1, h2, h3⟩ := feed_spec MIN_CHUNK_SIZE OVERLAP_SIZE MAX_BUFFER_SIZE hovServer
    [] (List.replicate 80000 (0 : Nat))
  rw [List.nil_append] at h2
  have hz : (List.replicate 80000 (0 : Nat)).length - MAX_BUFFER_SIZE = 0 := by
    rw [List.length_replicate]; decide
  rw [hz, List.drop_zero] at h2
  have hgt : MIN_CHUNK_SIZE < (List.replicate 80000 (0 : Nat)).length := by
    rw [List.length_replicate]; decide
  rw [chunkLoop_gt MIN_CHUNK_SIZE OVERLAP_SIZE hovServer _ hgt] at h2
  have hexact : ((List.replicate 80000 (0 : Nat)).drop
      (MIN_CHUNK_SIZE - OVERLAP_SIZE)).length = MIN_CHUNK_SIZE := by
    rw [List.length_drop, List.length_replicate]; decide
  rw [chunkLoop_exact MIN_CHUNK_SIZE OVERLAP_SIZE hovServer _ hexact] at h2
  simp only [] at h2
  unfold feedServer
  exact h2

/-- Witness for **C8** at concrete inputs: an 80000-byte feed (two adjacent
chunks), a 49000-byte feed (chunk followed by a retained buffer), a 10-byte
feed (no chunk, pure append) and a 17000+31000-byte feed (first chunk of a
follow-up feed on a 17000-byte buffer). -/
theorem c8_chunk_overlap_witness :
    ((feedServer [] (List.replicate 80000 (0 : Nat))).chunks =
        [] ++ (List.replicate 80000 (0 : Nat)).take MIN_CHUNK_SIZE ::
          (List.replicate 80000 (0 : Nat)).drop (MIN_CHUNK_SIZE - OVERLAP_SIZE) :: [] ∧
      ((List.replicate 80000 (0 : Nat)).take MIN_CHUNK_SIZE).drop
          (MIN_CHUNK_SIZE - OVERLAP_SIZE) =
        ((List.replicate 80000 (0 : Nat)).drop
          (MIN_CHUNK_SIZE - OVERLAP_SIZE)).take OVERLAP_SIZE) ∧
    ((feedServer [] (List.replicate 49000 (0 : Nat))).chunks =
        [] ++ [(List.replicate 49000 (0 : Nat)).take MIN_CHUNK_SIZE] ∧
      (feedServer [] (List.replicate 49000 (0 : Nat))).buffer ≠ [] ∧
      ((feedServer [] (List.replicate 49000 (0 : Nat))).buffer.take OVERLAP_SIZE =
          ((List.replicate 49000 (0 : Nat)).take MIN_CHUNK_SIZE).drop
            (MIN_CHUNK_SIZE - OVERLAP_SIZE) ∧
        OVERLAP_SIZE < (feedServer [] (List.replicate 49000 (0 : Nat))).buffer.length)) ∧
    ((feedServer [] (List.replicate 10 (0 : Nat))).dropped = 0 ∧
      (feedServer [] (List.replicate 10 (0 : Nat))).chunks = [] ∧
      (feedServer [] (List.replicate 10 (0 : Nat))).buffer =
        [] ++ List.replicate 10 (0 : Nat)) ∧
    ((feedServer (List.replicate 17000 (0 : Nat)) (List.replicate 31000 (1 : Nat))).dropped
        = 0 ∧
      (feedServer (List.replicate 17000 (0 : Nat)) (List.replicate 31000 (1 : Nat))).chunks =
        (List.replicate 17000 (0 : Nat) ++ List.replicate 31000 (1 : Nat)) :: [] ∧
      OVERLAP_SIZE ≤ (List.replicate 17000 (0 : Nat)).length ∧
      (List.replicate 17000 (0 : Nat) ++ List.replicate 31000 (1 : Nat)).take OVERLAP_SIZE =
        (List.replicate 17000 (0 : Nat)).take OVERLAP_SIZE) := by
  obtain ⟨e1, e2, e3⟩ := feedServer_eval_49000
  obtain ⟨f1, f2⟩ := feedServer_eval_10
  obtain ⟨g1, g2⟩ := feedServer_eval_exact
  have hsplit : (feedServer [] (List.replicate 49000 (0 : Nat))).chunks =
      [] ++ [(List.replicate 49000 (0 : Nat)).take MIN_CHUNK_SIZE] := by
    rw [e1, List.nil_append]
  have hbne : (feedServer [] (List.replicate 49000 (0 : Nat))).buffer ≠ [] := by
    rw [e2]
    apply List.ne_nil_of_length_pos
    rw [List.length_drop, List.length_replicate]
    decide
  have hov17 : OVERLAP_SIZE ≤ (List.replicate 17000 (0 : Nat)).length := by
    rw [List.length_replicate]; decide
  have hsplit80 : (feedServer [] (List.replicate 80000 (0 : Nat))).chunks =
      [] ++ (List.replicate 80000 (0 : Nat)).take MIN_CHUNK_SIZE ::
        (List.replicate 80000 (0 : Nat)).drop (MIN_CHUNK_SIZE - OVERLAP_SIZE) :: [] := by
    rw [feedServer_eval_80000, List.nil_append]
  refine ⟨⟨hsplit80, ?_⟩, ⟨hsplit, hbne, ?_⟩, ⟨f1, f2, ?_⟩, ⟨g1, g2, hov17, ?_⟩⟩
  · exact c8_chunk_overlap.1 [] (List.replicate 80000 (0 : Nat)) []
      ((List.replicate 80000 (0 : Nat)).take MIN_CHUNK_SIZE)
      ((List.replicate 80000 (0 : Nat)).drop (MIN_CHUNK_SIZE - OVERLAP_SIZE)) [] hsplit80
  · exact c8_chunk_overlap.2.1 [] (List.replicate 49000 (0 : Nat)) []
      ((List.replicate 49000 (0 : Nat)).take MIN_CHUNK_SIZE) hsplit hbne
  · exact c8_chunk_overlap.2.2.1 [] (List.replicate 10 (0 : Nat)) f1 f2
  · exact c8_chunk_overlap.2.2.2 (List.replicate 17000 (0 : Nat))
      (List.replicate 31000 (1 : Nat))
      (List.replicate 17000 (0 : Nat) ++ List.replicate 31000 (1 : Nat)) [] g1 g2 hov17

/-- **C3** counterexample: a one-shot request of 5000 bytes whose
transcription raises an exception produces the failure envelope
`{"success": false, "error": ..., "text": ""}` — with no `language` key,
contradicting the claim that the failure envelope still contains the
language field. -/
theorem c3_failure_missing_language :
    (transcribe_audio_request 5000 false (Except.error "boom")).success = false ∧
    (transcribe_audio_request 5000 false (Except.error "boom")).language = none := by
  decide

/-- **C3** (amended): every one-shot response carries `success` and `text`;
a successful response also carries `language` and omits `error`, while a
failure response carries `error` with empty text and omits `language`. -/
theorem c3_envelope_shape (dataLen : Nat) (is_webm : Bool)
    (outcome : Except String (Option ChunkResult)) :
    ((transcribe_audio_request dataLen is_webm outcome).success = true →
      (transcribe_audio_request dataLen is_webm outcome).language.isSome = true ∧
      (transcribe_audio_request dataLen is_webm outcome).error = none) ∧
    ((transcribe_audio_request dataLen is_webm outcome).success = false →
      (transcribe_audio_request dataLen is_webm outcome).language = none ∧
      (transcribe_audio_request dataLen is_webm outcome).error.isSome = true ∧
      (transcribe_audio_request dataLen is_webm outcome).text = "") := by
  by_cases h : dataLen < (if is_webm then 1000 else 2000)
  · unfold transcribe_audio_request
    rw [if_pos h]
    exact ⟨fun _ => ⟨rfl, rfl⟩, fun hh => by simp at hh⟩
  · unfold transcribe_audio_request
    rw [if_neg h]
    cases outcome with
    | error e => exact ⟨fun hh => by simp at hh, fun _ => ⟨rfl, rfl, rfl⟩⟩
    | ok r =>
        cases r with
        | none => exact ⟨fun _ => ⟨rfl, rfl⟩, fun hh => by simp at hh⟩
        | some cr => exact ⟨fun _ => ⟨rfl, rfl⟩, fun hh => by simp at hh⟩

/-- Witness for the amended **C3** shape at concrete inputs: a short-circuit
success (500 bytes) and an exception failure (5000 bytes). -/
theorem c3_envelope_shape_witness :
    ((transcribe_audio_request 500 false (Except.error "x")).success = true ∧
      ((transcribe_audio_request 500 false (Except.error "x")).language.isSome = true ∧
        (transcribe_audio_request 500 false (Except.error "x")).error = none)) ∧
    ((transcribe_audio_request 5000 false (Except.error "x")).success = false ∧
      ((transcribe_audio_request 5000 false (Except.error "x")).language = none ∧
        (transcribe_audio_request 5000 false (Except.error "x")).error.isSome = true ∧
        (transcribe_audio_request 5000 false (Except.error "x")).text = "")) :=
  ⟨⟨by decide, (c3_envelope_shape 500 false (Except.error "x")).1 (by decide)⟩,
    ⟨by decide, (c3_envelope_shape 5000 false (Except.error "x")).2 (by decide)⟩⟩

/-- Modelled from the claim's words, for comparison with `collect_parts`:
keep exactly the segments whose no-speech confidence does not exceed the
threshold and whose trimmed text contains no denylist phrase (the kept text
being the trimmed segment text). -/
def collect_parts_claimed (segs : List Segment) : List String :=
  (segs.filter fun seg =>
      decide (¬ seg.no_speech_prob > no_speech_threshold ∧
        hallucinationHit (pyStrip seg.text) = false)).map
    (fun seg => pyStrip seg.text)

/-- The keep-condition the segment loop actually implements: trimmed text
nonempty and at least 2 characters long, no-speech confidence not above the
threshold, and no denylist phrase in the lowercased trimmed text. -/
def keepSeg (seg : Segment) : Bool :=
  decide ((pyStrip seg.text ≠ "" ∧ 2 ≤ pyLen (pyStrip seg.text)) ∧
    ¬ seg.no_speech_prob > no_speech_threshold ∧
    hallucinationHit (pyStrip seg.text) = false)

/-- **C6** counterexample: a segment with trimmed text `"a"` (one
character), no-speech confidence `0` and no denylist phrase is dropped by
the loop (its trimmed text is shorter than 2 characters) although the claim
says only high no-speech or denylist segments are dropped. -/
theorem c6_short_segment_dropped :
    collect_parts [⟨"a", 0⟩] = [] ∧
    collect_parts_claimed [⟨"a", 0⟩] = ["a"] ∧
    collect_parts [⟨"a", 0⟩] ≠ collect_parts_claimed [⟨"a", 0⟩] := by
  refine ⟨by decide, by decide, by decide⟩

/-- **C6** (amended): the segment loop keeps exactly the segments whose
trimmed text is nonempty and at least 2 characters long, whose no-speech
confidence does not exceed 0.5, and whose lowercased trimmed text contains
no denylist phrase; the kept trimmed texts are joined with a single space
and trimmed. -/
theorem c6_segment_filter (segs : List Segment) :
    collect_parts segs = (segs.filter keepSeg).map (fun seg => pyStrip seg.text) ∧
    full_text_of segs =
      pyStrip (joinSpace ((segs.filter keepSeg).map (fun seg => pyStrip seg.text))) := by
  have hmain : ∀ l : List Segment,
      collect_parts l = (l.filter keepSeg).map (fun seg => pyStrip seg.text) := by
    intro l
    induction l with
    | nil => rfl
    | cons seg rest ih =>
        by_cases h1 : pyStrip seg.text ≠ "" ∧ 2 ≤ pyLen (pyStrip seg.text)
        · by_cases h2 : seg.no_speech_prob > no_speech_threshold
          · have hk : keepSeg seg = false := by
              simp only [keepSeg, decide_eq_false_iff_not]
              tauto
            simp only [collect_parts, if_pos h1, if_pos h2, List.filter_cons, hk,
              Bool.false_eq_true, if_false]
            exact ih
          · by_cases h3 : hallucinationHit (pyStrip seg.text) = true
            · have hk : keepSeg seg = false := by
                simp only [keepSeg, decide_eq_false_iff_not]
                simp only [h3]
                tauto
              simp only [collect_parts, if_pos h1, if_neg h2, if_pos h3, List.filter_cons,
                hk, Bool.false_eq_true, if_false]
              exact ih
            · have hk : keepSeg seg = true := by
                simp only [keepSeg, decide_eq_true_eq]
                exact ⟨h1, h2, by simpa using h3⟩
              simp only [collect_parts, if_pos h1, if_neg h2, if_neg h3, List.filter_cons,
                hk, if_true]
              rw [ih, List.map_cons]
        · have hk : keepSeg seg = false := by
            simp only [keepSeg, decide_eq_false_iff_not]
            tauto
          simp only [collect_parts, if_neg h1, List.filter_cons, hk,
            Bool.false_eq_true, if_false]
          exact ih
  refine ⟨hmain segs, ?_⟩
  unfold full_text_of
  rw [hmain segs]

/-- Distinct source labels yield distinct buffer keys: the key format
`f"{addr}_{source}"` is injective in the source for a fixed connection. -/
theorem mkKey_inj {s t : String} (h : mkKey s = mkKey t) : s = t := by
  have hd : (clientAddr ++ "_").data ++ s.data = (clientAddr ++ "_").data ++ t.data := by
    have hx := congrArg String.data h
    simpa [mkKey, String.data_append, List.append_assoc] using hx
  have hdata : s.data = t.data := List.append_cancel_left hd
  cases s
  cases t
  exact congrArg String.mk hdata

/-- **C4** counterexample: after `start("a")`, `start("b")` and a
disconnect, the buffer keyed to this connection for source `"a"` is still in
the registry — the `finally` cleanup deletes only the buffer named by the
current `buffer_key`. -/
theorem c4_disconnect_leaves_stale_buffer :
    dictMem
      (disconnectCleanup
        (handleText (handleText initialSession (TextMsg.startMsg (some "a"))).state
            (TextMsg.startMsg (some "b"))).state)
      (mkKey "a") = true ∧
    disconnectCleanup
      (handleText (handleText initialSession (TextMsg.startMsg (some "a"))).state
          (TextMsg.startMsg (some "b"))).state ≠ [] := by
  exact ⟨by decide, by decide⟩

/-- Processing a sequence of `start` control messages in order (the
lines 466–477 handler once per message). -/
def runStarts (st : SessState) : List String → SessState
  | [] => st
  | s :: rest => runStarts (handleText st (TextMsg.startMsg (some s))).state rest

/-- `dictMem` unfolded to existence of an entry with the given key. -/
theorem dictMem_iff (d : Buffers) (x : String) :
    dictMem d x = true ↔ ∃ p ∈ d, p.1 = x := by
  unfold dictMem
  rw [List.any_eq_true]
  constructor
  · rintro ⟨p, hp, hpx⟩
    exact ⟨p, hp, beq_iff_eq.mp hpx⟩
  · rintro ⟨p, hp, hpx⟩
    exact ⟨p, hp, beq_iff_eq.mpr hpx⟩

/-- Python dict assignment makes the key present. -/
theorem dictMem_dictSet_self (d : Buffers) (k : String) (v : List Nat) :
    dictMem (dictSet d k v) k = true := by
  unfold dictSet
  split
  · rename_i hmem
    obtain ⟨p, hp, hpk⟩ := (dictMem_iff d k).mp hmem
    apply (dictMem_iff _ _).mpr
    refine ⟨(k, v), ?_, rfl⟩
    have himg : (fun q => if q.1 == k then (k, v) else q) p = (k, v) := by
      simp [beq_iff_eq, hpk]
    have hmm := List.mem_map_of_mem (fun q => if q.1 == k then (k, v) else q) hp
    rw [himg] at hmm
    exact hmm
  · apply (dictMem_iff _ _).mpr
    exact ⟨(k, v), by simp, rfl⟩

/-- Python dict assignment keeps every key that was already present. -/
theorem dictMem_dictSet_preserve (d : Buffers) (k : String) (v : List Nat) (x : String)
    (h : dictMem d x = true) : dictMem (dictSet d k v) x = true := by
  obtain ⟨p, hp, hpx⟩ := (dictMem_iff d x).mp h
  unfold dictSet
  split
  · apply (dictMem_iff _ _).mpr
    refine ⟨(fun q => if q.1 == k then (k, v) else q) p, List.mem_map_of_mem _ hp, ?_⟩
    by_cases hpk : p.1 = k
    · simp only [beq_iff_eq, hpk, if_true]
      rw [← hpk]
      exact hpx
    · simp only [beq_iff_eq, hpk, if_false]
      exact hpx
  · apply (dictMem_iff _ _).mpr
    exact ⟨p, List.mem_append_left _ hp, hpx⟩

/-- Python `del d[k]` removes the key. -/
theorem dictMem_dictDel_self (d : Buffers) (k : String) :
    dictMem (dictDel d k) k = false := by
  by_contra h
  rw [Bool.not_eq_false] at h
  obtain ⟨p, hp, hpk⟩ := (dictMem_iff _ _).mp h
  unfold dictDel at hp
  have hne := (List.mem_filter.mp hp).2
  rw [bne_iff_ne] at hne
  exact hne hpk

/-- Python `del d[k]` keeps every other key. -/
theorem dictMem_dictDel_preserve (d : Buffers) (k x : String) (hxk : x ≠ k)
    (h : dictMem d x = true) : dictMem (dictDel d k) x = true := by
  obtain ⟨p, hp, hpx⟩ := (dictMem_iff d x).mp h
  apply (dictMem_iff _ _).mpr
  refine ⟨p, ?_, hpx⟩
  unfold dictDel
  apply List.mem_filter.mpr
  exact ⟨hp, bne_iff_ne.mpr (by rw [hpx]; exact hxk)⟩

/-- After any sequence of starts ending in source `s`, the current
`buffer_key` names `s`. -/
theorem runStarts_buffer_key (pre : List String) (s : String) :
    ∀ st : SessState, (runStarts st (pre ++ [s])).buffer_key = some (mkKey s) := by
  induction pre with
  | nil => intro st; rfl
  | cons a pre ih => intro st; exact ih _

/-- Keys present before a run of starts are still present afterwards. -/
theorem runStarts_mem_preserve (l : List String) :
    ∀ st : SessState, ∀ k : String, dictMem st.buffers k = true →
      dictMem (runStarts st l).buffers k = true := by
  induction l with
  | nil => intro st k h; exact h
  | cons a rest ih =>
      intro st k h
      apply ih
      exact dictMem_dictSet_preserve _ _ _ _ h

/-- Every started source has a registered buffer after the run. -/
theorem runStarts_mem (l : List String) :
    ∀ st : SessState, ∀ x ∈ l, dictMem (runStarts st l).buffers (mkKey x) = true := by
  induction l with
  | nil => intro st x hx; exact absurd hx (List.not_mem_nil x)
  | cons a rest ih =>
      intro st x hx
      rcases List.mem_cons.mp hx with rfl | hx2
      · show dictMem
          (runStarts (handleText st (TextMsg.startMsg (some x))).state rest).buffers
          (mkKey x) = true
        apply runStarts_mem_preserve rest
        exact dictMem_dictSet_self _ _ _
      · exact ih _ x hx2

/-- **C4** (amended): for every nonempty sequence of `start` control
messages with pairwise-distinct source labels followed by a disconnect,
exactly the buffer for the most recently started source is removed from the
registry; the buffers of all earlier sources remain registered. -/
theorem c4_disconnect_removes_current_only (sources : List String)
    (hne : sources ≠ []) (hnodup : sources.Nodup) :
    dictMem (disconnectCleanup (runStarts initialSession sources))
      (mkKey (sources.getLast hne)) = false ∧
    ∀ x ∈ sources.dropLast,
      dictMem (disconnectCleanup (runStarts initialSession sources)) (mkKey x) = true := by
  obtain ⟨pre, s, rfl⟩ : ∃ pre s, sources = pre ++ [s] :=
    ⟨sources.dropLast, sources.getLast hne, (List.dropLast_append_getLast hne).symm⟩
  have hs_not_pre : s ∉ pre := fun hmem =>
    List.disjoint_of_nodup_append hnodup hmem (List.mem_singleton_self s)
  have hkey : (runStarts initialSession (pre ++ [s])).buffer_key = some (mkKey s) :=
    runStarts_buffer_key pre s initialSession
  have hmem_s : dictMem (runStarts initialSession (pre ++ [s])).buffers (mkKey s) = true :=
    runStarts_mem (pre ++ [s]) initialSession s (by simp)
  have hclean : disconnectCleanup (runStarts initialSession (pre ++ [s])) =
      dictDel (runStarts initialSession (pre ++ [s])).buffers (mkKey s) := by
    unfold disconnectCleanup
    rw [hkey]
    simp only []
    rw [if_pos hmem_s]
  rw [show (pre ++ [s]).getLast hne = s from List.getLast_append_singleton pre,
    show (pre ++ [s]).dropLast = pre by simp, hclean]
  constructor
  · exact dictMem_dictDel_self _ _
  · intro x hx
    have hxs : x ≠ s := fun h => hs_not_pre (h ▸ hx)
    have hkne : mkKey x ≠ mkKey s := fun h => hxs (mkKey_inj h)
    exact dictMem_dictDel_preserve _ _ _ hkne
      (runStarts_mem (pre ++ [s]) initialSession x (List.mem_append_left _ hx))

/-- Witness for the amended **C4** at the concrete start sequence
`["a", "b"]`, checking the earlier-source buffer for `"a"` survives while
`"b"` (the most recent) is removed. -/
theorem c4_disconnect_removes_current_only_witness :
    ((["a", "b"] : List String) ≠ [] ∧ (["a", "b"] : List String).Nodup ∧
      ("a" : String) ∈ (["a", "b"] : List String).dropLast) ∧
    (dictMem (disconnectCleanup (runStarts initialSession ["a", "b"]))
        (mkKey "b") = false ∧
      dictMem (disconnectCleanup (runStarts initialSession ["a", "b"]))
        (mkKey "a") = true) := by
  have h1 : (["a", "b"] : List String) ≠ [] := by decide
  have h2 : (["a", "b"] : List String).Nodup := by decide
  have h3 : ("a" : String) ∈ (["a", "b"] : List String).dropLast := by decide
  have hmain := c4_disconnect_removes_current_only ["a", "b"] h1 h2
  have hlast : (["a", "b"] : List String).getLast h1 = "b" := rfl
  rw [hlast] at hmain
  exact ⟨⟨h1, h2, h3⟩, hmain.1, hmain.2 "a" h3⟩

theorem feedServer_eval_min :
    (feedServer [] (List.replicate MIN_CHUNK_SIZE (0 : Nat))).chunks =
        [List.replicate MIN_CHUNK_SIZE (0 : Nat)] ∧
    (feedServer [] (List.replicate MIN_CHUNK_SIZE (0 : Nat))).buffer = [] ∧
    (feedServer [] (List.replicate MIN_CHUNK_SIZE (0 : Nat))).dropped = 0 := by
  obtain ⟨h1, h2, h3⟩ := feed_spec MIN_CHUNK_SIZE OVERLAP_SIZE MAX_BUFFER_SIZE hovServer
    [] (List.replicate MIN_CHUNK_SIZE (0 : Nat))
  rw [List.nil_append] at h1 h2 h3
  have hz : (List.replicate MIN_CHUNK_SIZE (0 : Nat)).length - MAX_BUFFER_SIZE = 0 := by
    rw [List.length_replicate]; decide
  rw [hz] at h1
  rw [hz, List.drop_zero] at h2 h3
  have hlen : (List.replicate MIN_CHUNK_SIZE (0 : Nat)).length = MIN_CHUNK_SIZE :=
    List.length_replicate MIN_CHUNK_SIZE 0
  rw [chunkLoop_exact MIN_CHUNK_SIZE OVERLAP_SIZE hovServer _ hlen] at h2 h3
  simp only [] at h2 h3
  unfold feedServer
  exact ⟨h2, h3, h1⟩

/-- **C1**: the silence path.  Feeding exactly `minChunkBytes` of audio in
one binary message (with no active session, so the implicit "microphone"
session starts) extracts exactly one chunk and submits it with source
"microphone", leaving the session buffer empty.  But when the worker result
has empty text — `transcribe_audio_chunk` filters all segments out and
returns `None`, as it does for silence — `process_audio_chunk` evaluates
`result.get("text")` on `None`, which raises `AttributeError`; the
exception handler then sends the client an **error** message, not the
`{"type":"silence","source":...}` message of its unreachable silence
branch.  This contradicts both the claim and the code's own
"Send silence indicator" comment, so the claim is recorded as a code bug;
this theorem documents the actual behaviour at the failing input. -/
theorem c1_silence_result_sends_error :
    (handleBinary initialSession (List.replicate MIN_CHUNK_SIZE 0)).submitted =
      [("microphone", List.replicate MIN_CHUNK_SIZE 0)] ∧
    (handleBinary initialSession (List.replicate MIN_CHUNK_SIZE 0)).state.buffers =
      [(mkKey "microphone", [])] ∧
    transcribe_audio_chunk_result [] "en" = none ∧
    process_audio_chunk "microphone" (Except.ok none) =
      WsMsg.errorMsg "microphone" noneGetError ∧
    process_audio_chunk "microphone" (Except.ok none) ≠ WsMsg.silence "microphone" := by
  obtain ⟨e1, e2, e3⟩ := feedServer_eval_min
  refine ⟨?_, ?_, by decide, by decide, by decide⟩
  · simp [handleBinary, initialSession, dictMem, dictSet, dictGet, e1]
  · simp [handleBinary, initialSession, dictMem, dictSet, dictGet, e2]
